import Mathlib

/-!
# nuget-deploy: selection model, per-project pipeline and run controller

A shallow embedding of `src/cmd/deploy_nuget.go`:

* `model` / `model.Update` : the bubbletea checklist (lines 35-40, 77-99);
* `deployProject` : the clean / build / publish pipeline of one project
  (lines 193-265);
* `deployCommand` : discovery result, interactive selection and the loop over the
  selected projects (lines 278-343).

External collaborators (process execution, `os.Chdir`, `fmt.Scanln`, the progress
bars, the logger) are not executed: what they return is supplied by an oracle, and
every call made to them is recorded in a list of `Event`s.
-/

namespace NugetDeploy

/-! ## Data model -/

/-- The Go struct `Project` (lines 29-33). -/
structure Project where
  Name : String
  Path : String
  Dir : String
deriving DecidableEq, Repr

/-- A Go `map[int]bool`, as an association list.  `GoMap.set` keeps at most one
entry per key. -/
abbrev GoMap := List (Int × Bool)

/-- Go `m[k]` on a `map[int]bool`: the stored value, `false` for an absent key. -/
def GoMap.get (m : GoMap) (k : Int) : Bool :=
  match m.lookup k with
  | some b => b
  | none => false

/-- Go `m[k] = v`. -/
def GoMap.set (m : GoMap) (k : Int) (v : Bool) : GoMap :=
  (k, v) :: m.filter (fun e => e.1 != k)

/-- The keys present in the map. -/
def GoMap.keys (m : GoMap) : List Int := m.map Prod.fst

/-- The Go struct `model` (lines 35-40). -/
structure model where
  projects : List Project
  cursor : Int
  selected : GoMap
  done : Bool
deriving DecidableEq, Repr

/-- A `tea.Msg`: a key press, identified by `msg.String()`, or any other message. -/
inductive Msg where
  | key (s : String)
  | other
deriving DecidableEq, Repr

/-- A `tea.Cmd` as returned by `Update`: `nil` or `tea.Quit`. -/
inductive Cmd where
  | nil
  | quit
deriving DecidableEq, Repr

/-- `func (m model) Update(msg tea.Msg) (tea.Model, tea.Cmd)` (lines 77-99). -/
def model.Update (m : model) (msg : Msg) : model × Cmd :=
  match msg with
  | Msg.key s =>
    if s = "ctrl+c" ∨ s = "q" then
      (m, Cmd.quit)
    else if s = "up" ∨ s = "k" then
      if m.cursor > 0 then
        ({ m with cursor := m.cursor - 1 }, Cmd.nil)
      else
        (m, Cmd.nil)
    else if s = "down" ∨ s = "j" then
      if m.cursor < (m.projects.length : Int) - 1 then
        ({ m with cursor := m.cursor + 1 }, Cmd.nil)
      else
        (m, Cmd.nil)
    else if s = " " then
      ({ m with selected := m.selected.set m.cursor (!m.selected.get m.cursor) }, Cmd.nil)
    else if s = "enter" then
      ({ m with done := true }, Cmd.quit)
    else
      (m, Cmd.nil)
  | Msg.other => (m, Cmd.nil)

/-- The model built by `deployCommand` (lines 286-289): the catalog, an empty map,
and the zero values `cursor = 0`, `done = false`. -/
def initialModel (projects : List Project) : model :=
  { projects := projects, cursor := 0, selected := [], done := false }

/-- The model after `Update` has handled each message of `msgs` in turn, whatever
command each call returned. -/
def updates (m : model) : List Msg → model
  | [] => m
  | msg :: rest => updates (m.Update msg).1 rest

/-- `program.Run()` (line 292): messages are handled by `Update` until one call
returns `tea.Quit`; the model returned by that call is the final model, and later
messages are not handled.  `none` when the messages run out before any call asks to
quit. -/
def programRun (m : model) : List Msg → Option model
  | [] => none
  | msg :: rest =>
    match m.Update msg with
    | (m', Cmd.quit) => some m'
    | (m', Cmd.nil) => programRun m' rest

/-! ## External collaborators -/

/-- `strings.ToLower`, on the ASCII letters.  The source only compares its result
with `"y"`, and `Y` is the only other character whose lower case is `y`. -/
def ToLower (s : String) : String := ⟨s.data.map Char.toLower⟩

/-- `fmt.Scanln(&response)`: `tok` is the token the call stores into `response`;
`none` is a call that returns its error before storing anything (an empty line, or
end of input), which leaves `response` as it was. -/
def Scanln (response : String) (tok : Option String) : String :=
  match tok with
  | some t => t
  | none => response

/-- The three pipeline stages run through `exec.Command(...).Run()`. -/
inductive Stage where
  | clean
  | build
  | publish
deriving DecidableEq, Repr

/-- The two progress bars: the one `deployProject` creates, and `overallBar`. -/
inductive Bar where
  | perProject
  | overall
deriving DecidableEq, Repr

/-- One observable action.  `call` and `ret` mark the entry into and the return from
a `deployProject` invocation made by `deployCommand`. -/
inductive Event where
  | log (s : String)
  | fatal (s : String)
  | print (s : String)
  | scanln
  | chdir (dir : String)
  | exec (stage : Stage) (project : Project)
  | barNew (bar : Bar) (total : Nat)
  | barDescribe (s : String)
  | barAdd (bar : Bar) (n : Nat)
  | call (project : Project) (dryRun : Bool)
  | ret (project : Project) (err : Option String)
deriving DecidableEq, Repr

/-- What the collaborators answer during one `deployProject` call.  An error is
`some text`, `nil` is `none`; a reply is what `Scanln` stores (see `Scanln`). -/
structure Oracle where
  chdir : Option String
  clean : Option String
  build : Option String
  buildReply : Option String
  push : Option String
  deployReply : Option String
deriving DecidableEq, Repr

/-- The slice `steps` of `deployProject` (lines 195-199). -/
def steps : List String :=
  ["Cleaning packages", "Building project", "Publishing NuGet package"]

def buildPrompt : String := "\nDid the build succeed? (y/n): "

def deployPrompt : String := "\nDid the package deploy successfully? (y/n): "

def continuePrompt : String := "Continue with remaining projects? (y/n): "

/-- `func deployProject(project Project, dryRun bool) error` (lines 193-265): the
returned error (`none` is `nil`) and the actions performed, in order.  Terminal
styling of the logged name is left out. -/
def deployProject (project : Project) (dryRun : Bool) (o : Oracle) :
    Option String × List Event :=
  let ev0 := [Event.barNew Bar.perProject steps.length,
    Event.log ("\nProcessing: " ++ project.Name ++ "\n"),
    Event.log ("Directory: " ++ project.Dir ++ "\n")]
  if dryRun then
    (none, ev0 ++ [Event.log ("[DRY RUN] Would deploy: " ++ project.Path ++ "\n"),
      Event.barAdd Bar.perProject steps.length])
  else
    let ev1 := ev0 ++ [Event.chdir project.Dir]
    match o.chdir with
    | some e => (some ("failed to change directory: " ++ e), ev1)
    | none =>
      let ev2 := ev1 ++ [Event.barDescribe "Cleaning packages",
        Event.exec Stage.clean project,
        Event.barAdd Bar.perProject 1,
        Event.barDescribe "Building project",
        Event.exec Stage.build project]
      match o.build with
      | some e => (some ("build failed: " ++ e), ev2)
      | none =>
        let ev3 := ev2 ++ [Event.barAdd Bar.perProject 1, Event.print buildPrompt, Event.scanln]
        let response := Scanln "" o.buildReply
        if ToLower response ≠ "y" then
          (some "build reported as failed by user", ev3)
        else
          let ev4 := ev3 ++ [Event.barDescribe "Publishing NuGet package",
            Event.exec Stage.publish project]
          match o.push with
          | some e => (some ("push failed: " ++ e), ev4)
          | none =>
            let ev5 := ev4 ++ [Event.barAdd Bar.perProject 1, Event.print deployPrompt,
              Event.scanln]
            let response := Scanln response o.deployReply
            if ToLower response ≠ "y" then
              (some "deployment reported as failed by user", ev5)
            else
              (none, ev5)

/-- What the outside world supplies to one run of `deployCommand`: the result of
`findProjects()`, the error of `program.Run()` and the messages the program
receives, and, for the catalog index `i`, the oracle of the `deployProject` call on
that project and what `Scanln` stores after the continue prompt that follows it.
The loop visits each index at most once, so answers indexed this way cover every run. -/
structure World where
  findProjects : Except String (List Project)
  programErr : Option String
  msgs : List Msg
  deploy : Nat → Oracle
  continueReply : Nat → Option String

/-- The loop of lines 324-342 over `finalState.projects`, from index `i` on: the
actions performed, and whether the loop was left through `break`. -/
def deployLoop (selected : GoMap) (dryRun : Bool) (w : World) :
    Nat → List Project → List Event × Bool
  | _, [] => ([], false)
  | i, project :: rest =>
    if !selected.get (i : Int) then
      deployLoop selected dryRun w (i + 1) rest
    else
      let r := deployProject project dryRun (w.deploy i)
      let ev := [Event.call project dryRun] ++ r.2 ++ [Event.ret project r.1]
      match r.1 with
      | some e =>
        let ev1 := ev ++ [Event.log ("Error deploying " ++ project.Name ++ ": " ++ e ++ "\n"),
          Event.print continuePrompt, Event.scanln]
        let response := Scanln "" (w.continueReply i)
        if ToLower response ≠ "y" then
          (ev1, true)
        else
          let next := deployLoop selected dryRun w (i + 1) rest
          (ev1 ++ [Event.barAdd Bar.overall 1] ++ next.1, next.2)
      | none =>
        let next := deployLoop selected dryRun w (i + 1) rest
        (ev ++ [Event.log ("Successfully deployed " ++ project.Name ++ "!\n"),
          Event.barAdd Bar.overall 1] ++ next.1, next.2)

/-- The count of lines 314-319: the catalog indices, from `i` on, that map to true. -/
def selectedCount (selected : GoMap) : Nat → List Project → Nat
  | _, [] => 0
  | i, _ :: rest =>
    (if selected.get (i : Int) then 1 else 0) + selectedCount selected (i + 1) rest

/-- Lines 298-342 of `deployCommand`: what is done with the final model. -/
def deployFinalState (finalState : model) (dryRun : Bool) (w : World) :
    List Event × Bool :=
  let hasSelected := finalState.selected.any (fun e => e.2)
  if !hasSelected then
    ([Event.log "No nuget packages selected"], false)
  else
    let loop := deployLoop finalState.selected dryRun w 0 finalState.projects
    (Event.barNew Bar.overall (selectedCount finalState.selected 0 finalState.projects)
      :: loop.1, loop.2)

/-- `func deployCommand` (lines 278-343), with the flag `dryRun` as a parameter: the
actions performed and whether the loop was left through `break`; `none` while the
selection program has not been asked to quit. -/
def deployCommand (dryRun : Bool) (w : World) : Option (List Event × Bool) :=
  match w.findProjects with
  | Except.error e => some ([Event.fatal ("Failed to find Nuget projects: " ++ e ++ "\n")], false)
  | Except.ok projects =>
    match w.programErr with
    | some e => some ([Event.fatal ("Error running program: " ++ e ++ "\n")], false)
    | none =>
      match programRun (initialModel projects) w.msgs with
      | none => none
      | some finalState => some (deployFinalState finalState dryRun w)

/-! ## Observations on a list of actions -/

/-- The projects on which `deployProject` was invoked, in order. -/
def invoked (ev : List Event) : List Project :=
  ev.filterMap (fun e => match e with
    | Event.call p _ => some p
    | _ => none)

/-- The outcome of each `deployProject` invocation, in order: the project and the
returned error. -/
def outcomes (ev : List Event) : List (Project × Option String) :=
  ev.filterMap (fun e => match e with
    | Event.ret p err => some (p, err)
    | _ => none)

/-- The units by which the given bar was advanced. -/
def progress (bar : Bar) (ev : List Event) : Nat :=
  (ev.filterMap (fun e => match e with
    | Event.barAdd b n => if b = bar then some n else none
    | _ => none)).sum

/-- The stages whose process was run, in order. -/
def stagesRun (ev : List Event) : List Stage :=
  ev.filterMap (fun e => match e with
    | Event.exec s _ => some s
    | _ => none)

/-- The prompts printed with `fmt.Print`, in order. -/
def prompts (ev : List Event) : List String :=
  ev.filterMap (fun e => match e with
    | Event.print t => some t
    | _ => none)

/-- The number of `fmt.Scanln` calls. -/
def scans (ev : List Event) : Nat :=
  ev.countP (fun e => e = Event.scanln)

/-- The directories passed to `os.Chdir`, in order. -/
def chdirs (ev : List Event) : List String :=
  ev.filterMap (fun e => match e with
    | Event.chdir d => some d
    | _ => none)

/-- What every reachable model satisfies, for a catalog of `n` projects. -/
structure Inv (n : Nat) (m : model) : Prop where
  len : m.projects.length = n
  lo : 0 ≤ m.cursor
  hi : m.cursor ≤ (n : Int) - 1
  keys : ∀ k ∈ m.selected.keys, 0 ≤ k ∧ k ≤ (n : Int) - 1
  nodup : m.selected.keys.Nodup

/-! ## The run controller, as the specification words it -/

/-- The catalog entries whose index is checked, from index `i` on, in catalog order,
each with its index. -/
def checkedFrom (selected : GoMap) : Nat → List Project → List (Nat × Project)
  | _, [] => []
  | i, p :: rest =>
    if selected.get (i : Int) then (i, p) :: checkedFrom selected (i + 1) rest
    else checkedFrom selected (i + 1) rest

/-- The invocation on the catalog entry `ip` fails and the answer to the continue
prompt that follows is neither `y` nor `Y`. -/
def failedAndNotContinued (dryRun : Bool) (w : World) (ip : Nat × Project) : Bool :=
  decide ((deployProject ip.2 dryRun (w.deploy ip.1)).1 ≠ none ∧
    w.continueReply ip.1 ≠ some "y" ∧ w.continueReply ip.1 ≠ some "Y")

/-- The elements of a list up to and including the first one at which `stop` holds;
the whole list when there is none. -/
def throughFirst {α : Type} (stop : α → Bool) : List α → List α
  | [] => []
  | x :: rest => if stop x then [x] else x :: throughFirst stop rest

/-! ## Inputs used in the examples -/

def pA : Project := { Name := "A", Path := "/r/Sv.Packages/A/A.csproj", Dir := "/r/Sv.Packages/A" }

def pB : Project := { Name := "B", Path := "/r/Sv.Packages/B/B.csproj", Dir := "/r/Sv.Packages/B" }

/-- Every process exits zero and both confirmations are answered `y`. -/
def allGood : Oracle :=
  { chdir := none, clean := none, build := none, buildReply := some "y",
    push := none, deployReply := some "y" }

/-- The build process exits non-zero. -/
def buildFails : Oracle := { allGood with build := some "exit status 1" }

/-- The push process exits non-zero. -/
def pushFails : Oracle := { allGood with push := some "exit status 1" }

/-- The build is confirmed with `y`; the deployment prompt is answered with an empty
line. -/
def emptyDeployReply : Oracle := { allGood with deployReply := none }

/-- Catalog `[A, B]`, both checked and confirmed; A's build fails, B goes through; the
continue prompt is answered `y`. -/
def continueWorld : World :=
  { findProjects := Except.ok [pA, pB]
    programErr := none
    msgs := [Msg.key " ", Msg.key "down", Msg.key " ", Msg.key "enter"]
    deploy := fun i => if i = 0 then buildFails else allGood
    continueReply := fun _ => some "y" }

/-- As `continueWorld`, the continue prompt answered `n`. -/
def haltWorld : World := { continueWorld with continueReply := fun _ => some "n" }

/-- Catalog `[A]`: A is checked, then `q` is pressed. -/
def quitWorld : World :=
  { findProjects := Except.ok [pA]
    programErr := none
    msgs := [Msg.key " ", Msg.key "q"]
    deploy := fun _ => allGood
    continueReply := fun _ => none }

/-- Catalog `[A, B]`: A is checked and unchecked again, then enter is pressed. -/
def nothingCheckedWorld : World :=
  { findProjects := Except.ok [pA, pB]
    programErr := none
    msgs := [Msg.key " ", Msg.key " ", Msg.key "enter"]
    deploy := fun _ => allGood
    continueReply := fun _ => none }

/-! ## Lemmas on maps -/

theorem GoMap.lookup_filter_ne (m : GoMap) (c i : Int) (h : i ≠ c) :
    (m.filter (fun e => e.1 != c)).lookup i = m.lookup i := by
  induction m with
  | nil => rfl
  | cons e t ih =>
    obtain ⟨k, v⟩ := e
    by_cases hk : k = c
    · subst hk
      have hik : (i == k) = false := by simpa using h
      simp [List.filter, List.lookup, hik, ih]
    · have hkc : (k != c) = true := by simpa using hk
      simp only [List.filter, hkc, List.lookup]
      cases (i == k) <;> simp [ih]

theorem GoMap.get_set_same (m : GoMap) (c : Int) (v : Bool) : (m.set c v).get c = v := by
  simp [GoMap.get, GoMap.set, List.lookup]

theorem GoMap.get_set_other (m : GoMap) (c i : Int) (v : Bool) (h : i ≠ c) :
    (m.set c v).get i = m.get i := by
  have hic : (i == c) = false := by simpa using h
  simp [GoMap.get, GoMap.set, List.lookup, hic, GoMap.lookup_filter_ne m c i h]

theorem GoMap.mem_keys_set (m : GoMap) (c k : Int) (v : Bool) (h : k ∈ (m.set c v).keys) :
    k = c ∨ k ∈ m.keys := by
  simp only [GoMap.keys, GoMap.set, List.map_cons, List.mem_cons, List.mem_map,
    List.mem_filter] at h
  rcases h with h | ⟨e, ⟨he, _⟩, rfl⟩
  · exact Or.inl h
  · exact Or.inr (List.mem_map.2 ⟨e, he, rfl⟩)

theorem GoMap.nodup_keys_set (m : GoMap) (c : Int) (v : Bool) (h : m.keys.Nodup) :
    (m.set c v).keys.Nodup := by
  simp only [GoMap.keys, GoMap.set, List.map_cons, List.nodup_cons]
  constructor
  · intro hc
    obtain ⟨e, he, hec⟩ := List.mem_map.1 hc
    have := (List.mem_filter.1 he).2
    simp [hec] at this
  · exact (List.filter_sublist m).map Prod.fst |>.nodup h

theorem GoMap.lookup_of_mem (m : GoMap) (h : m.keys.Nodup) (k : Int) (v : Bool)
    (hm : (k, v) ∈ m) : m.lookup k = some v := by
  induction m with
  | nil => simp at hm
  | cons e t ih =>
    obtain ⟨k0, v0⟩ := e
    simp only [GoMap.keys, List.map_cons, List.nodup_cons] at h
    rcases List.mem_cons.1 hm with heq | ht
    · cases heq
      simp [List.lookup]
    · have hne : k ≠ k0 := by
        rintro rfl
        exact h.1 (List.mem_map.2 ⟨(k, v), ht, rfl⟩)
      have hb : (k == k0) = false := by simpa using hne
      simp only [List.lookup, hb]
      exact ih h.2 ht

/-- With one entry per key, no value of the map is true when every `m[k]` is false. -/
theorem GoMap.any_eq_false (m : GoMap) (h : m.keys.Nodup) (hall : ∀ k, m.get k = false) :
    m.any (fun e => e.2) = false := by
  rw [List.any_eq_false]
  rintro ⟨k, v⟩ hm
  have hl := GoMap.lookup_of_mem m h k v hm
  have := hall k
  simp only [GoMap.get, hl] at this
  simp [this]

/-- Some value of the map is true as soon as some `m[k]` is. -/
theorem GoMap.any_of_get (m : GoMap) (k : Int) (h : m.get k = true) :
    m.any (fun e => e.2) = true := by
  rw [List.any_eq_true]
  unfold GoMap.get at h
  split at h
  · rename_i b hb
    subst h
    induction m with
    | nil => simp [List.lookup] at hb
    | cons e t ih =>
      obtain ⟨k0, v0⟩ := e
      simp only [List.lookup] at hb
      split at hb
      · cases hb
        exact ⟨(k0, true), List.mem_cons_self _ _, rfl⟩
      · obtain ⟨x, hx, hx2⟩ := ih hb
        exact ⟨x, List.mem_cons_of_mem _ hx, hx2⟩
  · cases h

/-! ## The selection model -/

theorem Inv.initial (projects : List Project) (h : 1 ≤ projects.length) :
    Inv projects.length (initialModel projects) := by
  refine ⟨rfl, le_refl _, ?_, ?_, ?_⟩
  · simp only [initialModel]; omega
  · intro k hk; simp [initialModel, GoMap.keys] at hk
  · simp [initialModel, GoMap.keys]

theorem Inv.update (n : Nat) (m : model) (msg : Msg) (h : Inv n m) :
    Inv n (m.Update msg).1 := by
  obtain ⟨hlen, hlo, hhi, hkeys, hnd⟩ := h
  cases msg with
  | other => exact ⟨hlen, hlo, hhi, hkeys, hnd⟩
  | key s =>
    unfold model.Update
    simp only
    split_ifs with h1 h2 h3 h4 h5 h6 h7
    · exact ⟨hlen, hlo, hhi, hkeys, hnd⟩
    · exact ⟨hlen, by simp only; omega, by simp only; omega, hkeys, hnd⟩
    · exact ⟨hlen, hlo, hhi, hkeys, hnd⟩
    · refine ⟨hlen, by simp only; omega, ?_, hkeys, hnd⟩
      simp only
      rw [hlen] at h5
      omega
    · exact ⟨hlen, hlo, hhi, hkeys, hnd⟩
    · refine ⟨hlen, hlo, hhi, ?_, GoMap.nodup_keys_set _ _ _ hnd⟩
      intro k hk
      rcases GoMap.mem_keys_set _ _ _ _ hk with rfl | hk
      · exact ⟨hlo, hhi⟩
      · exact hkeys k hk
    · exact ⟨hlen, hlo, hhi, hkeys, hnd⟩
    · exact ⟨hlen, hlo, hhi, hkeys, hnd⟩

theorem Inv.updates (n : Nat) (msgs : List Msg) (m : model) (h : Inv n m) :
    Inv n (updates m msgs) := by
  induction msgs generalizing m with
  | nil => exact h
  | cons msg rest ih => exact ih _ (Inv.update n m msg h)

/-- C1: for a catalog of N ≥ 1 projects, after `Update` has handled any finite
sequence of messages from the initial model, the cursor lies in [0, N-1] and so does
every key of the selected map. -/
theorem selection_invariant (projects : List Project) (hN : 1 ≤ projects.length)
    (msgs : List Msg) :
    0 ≤ (updates (initialModel projects) msgs).cursor ∧
    (updates (initialModel projects) msgs).cursor ≤ (projects.length : Int) - 1 ∧
    ∀ k ∈ (updates (initialModel projects) msgs).selected.keys,
      0 ≤ k ∧ k ≤ (projects.length : Int) - 1 := by
  have h := Inv.updates projects.length msgs _ (Inv.initial projects hN)
  exact ⟨h.lo, h.hi, h.keys⟩

theorem selection_invariant_witness :
    1 ≤ [pA, pB].length ∧
    (updates (initialModel [pA, pB])
      [Msg.key "down", Msg.key " ", Msg.key "down", Msg.key "q", Msg.key "j"]).cursor = 1 ∧
    (0 ≤ (updates (initialModel [pA, pB])
      [Msg.key "down", Msg.key " ", Msg.key "down", Msg.key "q", Msg.key "j"]).cursor ∧
    (updates (initialModel [pA, pB])
      [Msg.key "down", Msg.key " ", Msg.key "down", Msg.key "q", Msg.key "j"]).cursor
        ≤ ([pA, pB].length : Int) - 1 ∧
    ∀ k ∈ (updates (initialModel [pA, pB])
      [Msg.key "down", Msg.key " ", Msg.key "down", Msg.key "q", Msg.key "j"]).selected.keys,
      0 ≤ k ∧ k ≤ ([pA, pB].length : Int) - 1) :=
  ⟨by decide, by decide, selection_invariant [pA, pB] (by decide) _⟩

/-- C9: two space presses in a row leave the cursor (and the catalog and `done`)
unchanged and give every index the value it had: the first press flips the cursor's
index and no other, the second flips it back. -/
theorem toggle_twice (m : model) :
    ((m.Update (Msg.key " ")).1.Update (Msg.key " ")).1.cursor = m.cursor ∧
    (∀ i, ((m.Update (Msg.key " ")).1.Update (Msg.key " ")).1.selected.get i
      = m.selected.get i) ∧
    (m.Update (Msg.key " ")).1.selected.get m.cursor = (!m.selected.get m.cursor) ∧
    (∀ i, i ≠ m.cursor → (m.Update (Msg.key " ")).1.selected.get i = m.selected.get i) ∧
    ((m.Update (Msg.key " ")).1.Update (Msg.key " ")).1.projects = m.projects ∧
    ((m.Update (Msg.key " ")).1.Update (Msg.key " ")).1.done = m.done := by
  have hu : ∀ m : model, (m.Update (Msg.key " ")).1 =
      { m with selected := m.selected.set m.cursor (!m.selected.get m.cursor) } := by
    intro m
    simp [model.Update]
  rw [hu, hu]
  refine ⟨rfl, ?_, GoMap.get_set_same _ _ _, fun i hi => GoMap.get_set_other _ _ _ _ hi,
    rfl, rfl⟩
  intro i
  simp only
  by_cases hi : i = m.cursor
  · subst hi
    rw [GoMap.get_set_same, GoMap.get_set_same, Bool.not_not]
  · rw [GoMap.get_set_other _ _ _ _ hi, GoMap.get_set_other _ _ _ _ hi]

/-! ## The pipeline of one project -/

theorem toLower_char_eq_y (c : Char) : c.toLower = 'y' ↔ c = 'y' ∨ c = 'Y' := by
  constructor
  · intro h
    have hc : Char.ofNat c.toNat = c := Char.ofNat_toNat c
    unfold Char.toLower at h
    simp only at h
    by_cases hn : c.toNat ≥ 65 ∧ c.toNat ≤ 90
    · rw [if_pos hn] at h
      right
      obtain ⟨h1, h2⟩ := hn
      generalize c.toNat = n at *
      subst hc
      interval_cases n <;> first | rfl | (exact absurd h (by decide))
    · rw [if_neg hn] at h
      left; exact h
  · rintro (rfl | rfl) <;> decide

/-- The test `strings.ToLower(response) == "y"` holds for `y` and `Y` only. -/
theorem ToLower_eq_y (s : String) : ToLower s = "y" ↔ s = "y" ∨ s = "Y" := by
  constructor
  · intro h
    have h1 : s.data.map Char.toLower = ['y'] := congrArg String.data h
    obtain ⟨l⟩ := s
    simp only at h1
    cases l with
    | nil => simp at h1
    | cons c t =>
      cases t with
      | cons d t2 => simp at h1
      | nil =>
        simp only [List.map, List.cons.injEq, and_true] at h1
        rcases (toLower_char_eq_y c).1 h1 with rfl | rfl
        · left; rfl
        · right; rfl
  · rintro (rfl | rfl) <;> decide

/-- A reply read into a fresh (empty) variable passes the test exactly when the stored
token is `y` or `Y`. -/
theorem fresh_reply_affirmative (r : Option String) :
    ToLower (Scanln "" r) = "y" ↔ r = some "y" ∨ r = some "Y" := by
  rw [ToLower_eq_y]
  cases r with
  | none => simp [Scanln]
  | some t => simp [Scanln]

theorem deployProject_dryRun (project : Project) (o : Oracle) :
    deployProject project true o =
      (none, [Event.barNew Bar.perProject 3,
        Event.log ("\nProcessing: " ++ project.Name ++ "\n"),
        Event.log ("Directory: " ++ project.Dir ++ "\n"),
        Event.log ("[DRY RUN] Would deploy: " ++ project.Path ++ "\n"),
        Event.barAdd Bar.perProject 3]) := by
  simp [deployProject, steps]

theorem deployProject_chdir_fails (project : Project) (o : Oracle) (e : String)
    (hcd : o.chdir = some e) :
    deployProject project false o =
      (some ("failed to change directory: " ++ e),
        [Event.barNew Bar.perProject 3,
        Event.log ("\nProcessing: " ++ project.Name ++ "\n"),
        Event.log ("Directory: " ++ project.Dir ++ "\n"),
        Event.chdir project.Dir]) := by
  simp [deployProject, steps, hcd]

theorem deployProject_build_fails (project : Project) (o : Oracle) (e : String)
    (hcd : o.chdir = none) (hb : o.build = some e) :
    deployProject project false o =
      (some ("build failed: " ++ e),
        [Event.barNew Bar.perProject 3,
        Event.log ("\nProcessing: " ++ project.Name ++ "\n"),
        Event.log ("Directory: " ++ project.Dir ++ "\n"),
        Event.chdir project.Dir,
        Event.barDescribe "Cleaning packages",
        Event.exec Stage.clean project,
        Event.barAdd Bar.perProject 1,
        Event.barDescribe "Building project",
        Event.exec Stage.build project]) := by
  simp [deployProject, steps, hcd, hb]

theorem deployProject_build_rejected (project : Project) (o : Oracle)
    (hcd : o.chdir = none) (hb : o.build = none)
    (hr : ¬ (o.buildReply = some "y" ∨ o.buildReply = some "Y")) :
    deployProject project false o =
      (some "build reported as failed by user",
        [Event.barNew Bar.perProject 3,
        Event.log ("\nProcessing: " ++ project.Name ++ "\n"),
        Event.log ("Directory: " ++ project.Dir ++ "\n"),
        Event.chdir project.Dir,
        Event.barDescribe "Cleaning packages",
        Event.exec Stage.clean project,
        Event.barAdd Bar.perProject 1,
        Event.barDescribe "Building project",
        Event.exec Stage.build project,
        Event.barAdd Bar.perProject 1,
        Event.print buildPrompt,
        Event.scanln]) := by
  have h := (fresh_reply_affirmative o.buildReply).not.2 hr
  simp [deployProject, steps, hcd, hb, h]

theorem deployProject_push_fails (project : Project) (o : Oracle) (e : String)
    (hcd : o.chdir = none) (hb : o.build = none)
    (hr : o.buildReply = some "y" ∨ o.buildReply = some "Y") (hp : o.push = some e) :
    deployProject project false o =
      (some ("push failed: " ++ e),
        [Event.barNew Bar.perProject 3,
        Event.log ("\nProcessing: " ++ project.Name ++ "\n"),
        Event.log ("Directory: " ++ project.Dir ++ "\n"),
        Event.chdir project.Dir,
        Event.barDescribe "Cleaning packages",
        Event.exec Stage.clean project,
        Event.barAdd Bar.perProject 1,
        Event.barDescribe "Building project",
        Event.exec Stage.build project,
        Event.barAdd Bar.perProject 1,
        Event.print buildPrompt,
        Event.scanln,
        Event.barDescribe "Publishing NuGet package",
        Event.exec Stage.publish project]) := by
  have h := (fresh_reply_affirmative o.buildReply).2 hr
  simp [deployProject, steps, hcd, hb, h, hp]

/-- When the push has exited zero, the result is decided by the variable `response`
after the second `Scanln`, which still holds the build reply when nothing was
stored. -/
theorem deployProject_pushed (project : Project) (o : Oracle)
    (hcd : o.chdir = none) (hb : o.build = none)
    (hr : o.buildReply = some "y" ∨ o.buildReply = some "Y") (hp : o.push = none) :
    deployProject project false o =
      (if ToLower (Scanln (Scanln "" o.buildReply) o.deployReply) ≠ "y" then
          some "deployment reported as failed by user"
        else none,
        [Event.barNew Bar.perProject 3,
        Event.log ("\nProcessing: " ++ project.Name ++ "\n"),
        Event.log ("Directory: " ++ project.Dir ++ "\n"),
        Event.chdir project.Dir,
        Event.barDescribe "Cleaning packages",
        Event.exec Stage.clean project,
        Event.barAdd Bar.perProject 1,
        Event.barDescribe "Building project",
        Event.exec Stage.build project,
        Event.barAdd Bar.perProject 1,
        Event.print buildPrompt,
        Event.scanln,
        Event.barDescribe "Publishing NuGet package",
        Event.exec Stage.publish project,
        Event.barAdd Bar.perProject 1,
        Event.print deployPrompt,
        Event.scanln]) := by
  have h := (fresh_reply_affirmative o.buildReply).2 hr
  simp only [deployProject, steps, hcd, hb, h, hp]
  by_cases h2 : ToLower (Scanln (Scanln "" o.buildReply) o.deployReply) = "y"
  · simp [h2]
  · simp [h2]

/-- C5: once the working directory is changed, a build process that exits non-zero,
or one that exits zero followed by a build confirmation other than `y`/`Y`, makes
`deployProject` return an error (`build failed: ...`, resp. `build reported as failed
by user`); only clean and build were run, and the deployment confirmation is not
asked. -/
theorem build_stage_short_circuit (project : Project) (o : Oracle)
    (hcd : o.chdir = none)
    (hfail : o.build ≠ none ∨ (o.buildReply ≠ some "y" ∧ o.buildReply ≠ some "Y")) :
    (deployProject project false o).1 ≠ none ∧
    (∀ e, o.build = some e →
      (deployProject project false o).1 = some ("build failed: " ++ e)) ∧
    (o.build = none →
      (deployProject project false o).1 = some "build reported as failed by user") ∧
    stagesRun (deployProject project false o).2 = [Stage.clean, Stage.build] ∧
    Stage.publish ∉ stagesRun (deployProject project false o).2 ∧
    deployPrompt ∉ prompts (deployProject project false o).2 := by
  cases hb : o.build with
  | some e =>
    rw [deployProject_build_fails project o e hcd hb]
    simp [stagesRun, prompts]
  | none =>
    have hr : ¬ (o.buildReply = some "y" ∨ o.buildReply = some "Y") := by
      rcases hfail with h | h
      · exact absurd hb h
      · exact fun h2 => h2.elim h.1 h.2
    rw [deployProject_build_rejected project o hcd hb hr]
    simp [stagesRun, prompts, buildPrompt, deployPrompt]

theorem build_stage_short_circuit_witness :
    buildFails.chdir = none ∧
    (buildFails.build ≠ none ∨
      (buildFails.buildReply ≠ some "y" ∧ buildFails.buildReply ≠ some "Y")) ∧
    (deployProject pA false buildFails).1 = some "build failed: exit status 1" ∧
    stagesRun (deployProject pA false buildFails).2 = [Stage.clean, Stage.build] :=
  ⟨rfl, Or.inl (by decide),
    (build_stage_short_circuit pA buildFails rfl (Or.inl (by decide))).2.1 _ rfl,
    (build_stage_short_circuit pA buildFails rfl (Or.inl (by decide))).2.2.2.1⟩

/-- C6, at the failing input: the build is confirmed with `y`, the push exits zero and
the deployment prompt is answered with an empty line (nothing stored by `Scanln`).
`deployProject` returns `nil`: the variable still holds the build reply. -/
theorem empty_deploy_reply_succeeds :
    emptyDeployReply.deployReply ≠ some "y" ∧ emptyDeployReply.deployReply ≠ some "Y" ∧
    (deployProject pA false emptyDeployReply).1 = none ∧
    prompts (deployProject pA false emptyDeployReply).2 = [buildPrompt, deployPrompt] ∧
    scans (deployProject pA false emptyDeployReply).2 = 2 := by
  decide

/-- C7: when each confirmation prompt that is reached has a token stored by `Scanln`
(for the build prompt nothing needs to be assumed: with no token the variable is still
empty), `deployProject` returns `nil` exactly when the change of directory, the build
and the push succeeded and both stored tokens are `y` or `Y`; the result of the
removal command plays no part. -/
theorem outcome_characterisation (project : Project) (o : Oracle)
    (hdeploy : o.chdir = none → o.build = none →
      (o.buildReply = some "y" ∨ o.buildReply = some "Y") → o.push = none →
      o.deployReply ≠ none) :
    ((deployProject project false o).1 = none ↔
      o.chdir = none ∧ o.build = none ∧
      (o.buildReply = some "y" ∨ o.buildReply = some "Y") ∧
      o.push = none ∧
      (o.deployReply = some "y" ∨ o.deployReply = some "Y")) ∧
    ∀ c, deployProject project false { o with clean := c } = deployProject project false o := by
  refine ⟨?_, fun c => rfl⟩
  cases hcd : o.chdir with
  | some e => rw [deployProject_chdir_fails project o e hcd]; simp
  | none =>
    cases hb : o.build with
    | some e => rw [deployProject_build_fails project o e hcd hb]; simp
    | none =>
      by_cases hr : o.buildReply = some "y" ∨ o.buildReply = some "Y"
      · cases hp : o.push with
        | some e => rw [deployProject_push_fails project o e hcd hb hr hp]; simp
        | none =>
          rw [deployProject_pushed project o hcd hb hr hp]
          have hd := hdeploy hcd hb hr hp
          obtain ⟨t, ht⟩ := Option.ne_none_iff_exists'.1 hd
          have hs : Scanln (Scanln "" o.buildReply) o.deployReply = t := by
            rw [ht]; rfl
          rw [hs]
          have ht2 : ToLower t = "y" ↔ (o.deployReply = some "y" ∨ o.deployReply = some "Y") := by
            rw [ToLower_eq_y, ht]; simp
          by_cases hy : ToLower t = "y"
          · simp [hy, hr, ht2.1 hy]
          · have := mt ht2.2 hy
            simp [hy, this]
      · rw [deployProject_build_rejected project o hcd hb hr]
        simp [hr]

theorem outcome_characterisation_witness :
    allGood.deployReply ≠ none ∧
    (deployProject pA false allGood).1 = none ∧
    (deployProject pA false { allGood with deployReply := some "n" }).1 ≠ none :=
  ⟨by decide,
    (outcome_characterisation pA allGood (fun _ _ _ _ => by decide)).1.2 (by decide),
    fun h => absurd ((outcome_characterisation pA { allGood with deployReply := some "n" }
      (fun _ _ _ _ => by decide)).1.1 h).2.2.2.2 (by decide)⟩

/-- C10, as stated, fails: with a build process that exits non-zero, clean and build
were run but the per-project bar was advanced by 1, not 2; with a push that exits
non-zero, three stages were run and the bar was advanced by 2. -/
theorem progress_not_stages_run :
    stagesRun (deployProject pA false buildFails).2 = [Stage.clean, Stage.build] ∧
    progress Bar.perProject (deployProject pA false buildFails).2 = 1 ∧
    stagesRun (deployProject pA false pushFails).2
      = [Stage.clean, Stage.build, Stage.publish] ∧
    progress Bar.perProject (deployProject pA false pushFails).2 = 2 ∧
    ¬ (∀ (project : Project) (o : Oracle), o.chdir = none →
      progress Bar.perProject (deployProject project false o).2
        = (stagesRun (deployProject project false o).2).length) := by
  refine ⟨by decide, by decide, by decide, by decide, fun h => ?_⟩
  exact absurd (h pA buildFails rfl) (by decide)

/-- C10, amended: once the working directory is changed, the per-project bar is
advanced by one for Clean whatever the removal command returned, by one more only
when the build process exited zero, and by one more only when the push process was
run and exited zero. -/
theorem progress_counts_completed_stages (project : Project) (o : Oracle)
    (hcd : o.chdir = none) :
    progress Bar.perProject (deployProject project false o).2 =
      1 + (if o.build = none then 1 else 0) +
        (if o.build = none ∧ (o.buildReply = some "y" ∨ o.buildReply = some "Y") ∧
          o.push = none then 1 else 0) ∧
    stagesRun (deployProject project false o).2 =
      [Stage.clean, Stage.build] ++
        (if o.build = none ∧ (o.buildReply = some "y" ∨ o.buildReply = some "Y")
          then [Stage.publish] else []) := by
  cases hb : o.build with
  | some e => rw [deployProject_build_fails project o e hcd hb]; simp [progress, stagesRun]
  | none =>
    by_cases hr : o.buildReply = some "y" ∨ o.buildReply = some "Y"
    · cases hp : o.push with
      | some e =>
        rw [deployProject_push_fails project o e hcd hb hr hp]; simp [progress, stagesRun, hr]
      | none =>
        rw [deployProject_pushed project o hcd hb hr hp]; simp [progress, stagesRun, hr]
    · rw [deployProject_build_rejected project o hcd hb hr]; simp [progress, stagesRun, hr]

theorem progress_counts_completed_stages_witness :
    pushFails.chdir = none ∧
    progress Bar.perProject (deployProject pA false pushFails).2 = 2 ∧
    stagesRun (deployProject pA false pushFails).2
      = [Stage.clean, Stage.build, Stage.publish] :=
  ⟨rfl, (progress_counts_completed_stages pA pushFails rfl).1.trans (by decide),
    (progress_counts_completed_stages pA pushFails rfl).2.trans (by decide)⟩

/-! ## The run controller -/

/-- The actions of `deployProject` contain no entry or return mark of their own. -/
theorem deployProject_quiet (project : Project) (dryRun : Bool) (o : Oracle) :
    invoked (deployProject project dryRun o).2 = [] ∧
    outcomes (deployProject project dryRun o).2 = [] := by
  cases dryRun with
  | true => rw [deployProject_dryRun]; simp [invoked, outcomes]
  | false =>
    cases hcd : o.chdir with
    | some e => rw [deployProject_chdir_fails project o e hcd]; simp [invoked, outcomes]
    | none =>
      cases hb : o.build with
      | some e => rw [deployProject_build_fails project o e hcd hb]; simp [invoked, outcomes]
      | none =>
        by_cases hr : o.buildReply = some "y" ∨ o.buildReply = some "Y"
        · cases hp : o.push with
          | some e =>
            rw [deployProject_push_fails project o e hcd hb hr hp]; simp [invoked, outcomes]
          | none =>
            rw [deployProject_pushed project o hcd hb hr hp]; simp [invoked, outcomes]
        · rw [deployProject_build_rejected project o hcd hb hr]; simp [invoked, outcomes]

/-- The loop invokes `deployProject` on the checked entries, in order, up to and
including the first that fails without an affirmative continue answer. -/
theorem deployLoop_spec (selected : GoMap) (dryRun : Bool) (w : World)
    (projects : List Project) (i : Nat) :
    invoked (deployLoop selected dryRun w i projects).1 =
      (throughFirst (failedAndNotContinued dryRun w) (checkedFrom selected i projects)).map
        Prod.snd ∧
    outcomes (deployLoop selected dryRun w i projects).1 =
      (throughFirst (failedAndNotContinued dryRun w) (checkedFrom selected i projects)).map
        (fun ip => (ip.2, (deployProject ip.2 dryRun (w.deploy ip.1)).1)) ∧
    (deployLoop selected dryRun w i projects).2 =
      (checkedFrom selected i projects).any (failedAndNotContinued dryRun w) := by
  induction projects generalizing i with
  | nil => simp [deployLoop, checkedFrom, throughFirst, invoked, outcomes]
  | cons p rest ih =>
    obtain ⟨ih1, ih2, ih3⟩ := ih (i + 1)
    obtain ⟨hq1, hq2⟩ := deployProject_quiet p dryRun (w.deploy i)
    simp only [invoked, outcomes] at ih1 ih2 hq1 hq2 ⊢
    by_cases hsel : selected.get (i : Int) = true
    · cases hres : (deployProject p dryRun (w.deploy i)).1 with
      | none =>
        have hstop : failedAndNotContinued dryRun w (i, p) = false := by
          simp [failedAndNotContinued, hres]
        simp [deployLoop, checkedFrom, throughFirst, hsel, hres, hstop,
          List.filterMap_append, hq1, hq2, ih1, ih2, ih3]
      | some e =>
        by_cases hy : w.continueReply i = some "y" ∨ w.continueReply i = some "Y"
        · have hstop : failedAndNotContinued dryRun w (i, p) = false := by
            simp only [failedAndNotContinued, decide_eq_false_iff_not]
            rintro ⟨_, h1, h2⟩
            exact hy.elim h1 h2
          have hl := (fresh_reply_affirmative (w.continueReply i)).2 hy
          simp [deployLoop, checkedFrom, throughFirst, hsel, hres, hstop, hl,
            List.filterMap_append, hq1, hq2, ih1, ih2, ih3]
        · have hstop : failedAndNotContinued dryRun w (i, p) = true := by
            simp only [failedAndNotContinued, decide_eq_true_eq]
            exact ⟨by simp [hres], fun h => hy (Or.inl h), fun h => hy (Or.inr h)⟩
          have hl := (fresh_reply_affirmative (w.continueReply i)).not.2 hy
          simp [deployLoop, checkedFrom, throughFirst, hsel, hres, hstop, hl,
            List.filterMap_append, hq1, hq2]
    · simp [deployLoop, checkedFrom, hsel, ih1, ih2, ih3]

theorem programRun_induct (P : model → Prop)
    (hstep : ∀ m msg, P m → P (m.Update msg).1) (msgs : List Msg) (m fs : model)
    (h : P m) (hr : programRun m msgs = some fs) : P fs := by
  induction msgs generalizing m with
  | nil => simp [programRun] at hr
  | cons msg rest ih =>
    have hu := hstep m msg h
    unfold programRun at hr
    split at hr
    · rename_i m1 heq
      cases hr
      rw [heq] at hu
      exact hu
    · rename_i m1 heq
      rw [heq] at hu
      exact ih _ hu hr

theorem Update_projects (m : model) (msg : Msg) : (m.Update msg).1.projects = m.projects := by
  cases msg with
  | other => rfl
  | key s =>
    unfold model.Update
    simp only
    split_ifs <;> rfl

theorem Update_nodup (m : model) (msg : Msg) (h : m.selected.keys.Nodup) :
    (m.Update msg).1.selected.keys.Nodup := by
  cases msg with
  | other => exact h
  | key s =>
    unfold model.Update
    simp only
    split_ifs
    all_goals first | exact h | exact GoMap.nodup_keys_set _ _ _ h

/-- The final model of the selection program has the catalog it was started with and
a map with one entry per key. -/
theorem programRun_final (projects : List Project) (msgs : List Msg) (fs : model)
    (hr : programRun (initialModel projects) msgs = some fs) :
    fs.projects = projects ∧ fs.selected.keys.Nodup := by
  constructor
  · exact programRun_induct (fun m => m.projects = projects)
      (fun m msg h => (Update_projects m msg).trans h) msgs _ fs rfl hr
  · exact programRun_induct (fun m => m.selected.keys.Nodup)
      (fun m msg h => Update_nodup m msg h) msgs _ fs (by simp [initialModel, GoMap.keys]) hr

theorem GoMap.get_eq_false_of_any (m : GoMap) (h : m.any (fun e => e.2) = false) (k : Int) :
    m.get k = false := by
  cases hk : m.get k with
  | false => rfl
  | true => rw [GoMap.any_of_get m k hk] at h; cases h

theorem checkedFrom_eq_nil (selected : GoMap) (h : ∀ k, selected.get k = false)
    (projects : List Project) (i : Nat) : checkedFrom selected i projects = [] := by
  induction projects generalizing i with
  | nil => rfl
  | cons p rest ih => simp [checkedFrom, h, ih]

/-- The entries of `checkedFrom` are the catalog entries at a checked index. -/
theorem mem_checkedFrom (selected : GoMap) (projects : List Project) (i j : Nat)
    (p : Project) :
    (j, p) ∈ checkedFrom selected i projects ↔
      i ≤ j ∧ projects[j - i]? = some p ∧ selected.get (j : Int) = true := by
  induction projects generalizing i with
  | nil => simp [checkedFrom]
  | cons q rest ih =>
    have hrest : (j, p) ∈ checkedFrom selected (i + 1) rest ↔
        i + 1 ≤ j ∧ rest[j - (i + 1)]? = some p ∧ selected.get (j : Int) = true := ih (i + 1)
    by_cases hij : i = j
    · subst hij
      have hno : (i, p) ∉ checkedFrom selected (i + 1) rest := by
        rw [hrest]; omega
      by_cases hsel : selected.get (i : Int) = true
      · simp [checkedFrom, hsel, hno]
        exact eq_comm
      · simp [checkedFrom, hsel, hno]
    · by_cases hlt : i < j
      · have hidx : j - i = (j - (i + 1)) + 1 := by omega
        have hle : i + 1 ≤ j := hlt
        by_cases hsel : selected.get (i : Int) = true
        · simp only [checkedFrom, hsel, if_true, List.mem_cons, Prod.mk.injEq, hrest, hidx,
            List.getElem?_cons_succ]
          constructor
          · rintro (⟨h, _⟩ | ⟨_, h2, h3⟩)
            · exact absurd h.symm hij
            · exact ⟨by omega, h2, h3⟩
          · rintro ⟨_, h2, h3⟩
            exact Or.inr ⟨hle, h2, h3⟩
        · have hsel2 : selected.get (i : Int) = false := by simpa using hsel
          simp only [checkedFrom, hsel2, Bool.false_eq_true, if_false, hrest, hidx,
            List.getElem?_cons_succ]
          constructor
          · rintro ⟨_, h2, h3⟩
            exact ⟨by omega, h2, h3⟩
          · rintro ⟨_, h2, h3⟩
            exact ⟨hle, h2, h3⟩
      · have hno : (j, p) ∉ checkedFrom selected (i + 1) rest := by
          rw [hrest]; omega
        have hnle : ¬ i ≤ j := by omega
        by_cases hsel : selected.get (i : Int) = true
        · simp [checkedFrom, hsel, hno, hnle]
          intro h; exact absurd h.symm hij
        · simp [checkedFrom, hsel, hno, hnle]

/-- The indices of `checkedFrom` are strictly increasing. -/
theorem checkedFrom_ascending (selected : GoMap) (projects : List Project) (i : Nat) :
    ((checkedFrom selected i projects).map Prod.fst).Pairwise (fun a b => a < b) := by
  induction projects generalizing i with
  | nil => simp [checkedFrom]
  | cons q rest ih =>
    by_cases hsel : selected.get (i : Int) = true
    · simp only [checkedFrom, hsel, if_true, List.map_cons, List.pairwise_cons]
      refine ⟨?_, ih (i + 1)⟩
      intro a ha
      obtain ⟨⟨j, p⟩, hm, rfl⟩ := List.mem_map.1 ha
      have := ((mem_checkedFrom selected rest (i + 1) j p).1 hm).1
      simp only
      omega
    · have hsel2 : selected.get (i : Int) = false := by simpa using hsel
      simp only [checkedFrom, hsel2, Bool.false_eq_true, if_false]
      exact ih (i + 1)

theorem throughFirst_append {α : Type} (stop : α → Bool) (l : List α) :
    ∃ rest, l = throughFirst stop l ++ rest := by
  induction l with
  | nil => exact ⟨[], rfl⟩
  | cons x t ih =>
    by_cases hx : stop x = true
    · exact ⟨t, by simp [throughFirst, hx]⟩
    · obtain ⟨rest, hrest⟩ := ih
      refine ⟨rest, ?_⟩
      have hx2 : stop x = false := by simpa using hx
      simp only [throughFirst, hx2, Bool.false_eq_true, if_false, List.cons_append]
      rw [← hrest]

/-- In dry-run mode the loop goes through every checked entry: each invocation
returns `nil`, and nothing is prompted, read, run or changed. -/
theorem deployLoop_dryRun (selected : GoMap) (w : World) (projects : List Project)
    (i : Nat) :
    invoked (deployLoop selected true w i projects).1 =
      (checkedFrom selected i projects).map Prod.snd ∧
    outcomes (deployLoop selected true w i projects).1 =
      (checkedFrom selected i projects).map (fun ip => (ip.2, none)) ∧
    prompts (deployLoop selected true w i projects).1 = [] ∧
    scans (deployLoop selected true w i projects).1 = 0 ∧
    stagesRun (deployLoop selected true w i projects).1 = [] ∧
    chdirs (deployLoop selected true w i projects).1 = [] ∧
    (deployLoop selected true w i projects).2 = false := by
  induction projects generalizing i with
  | nil => simp [deployLoop, checkedFrom, invoked, outcomes, prompts, scans, stagesRun, chdirs]
  | cons p rest ih =>
    obtain ⟨ih1, ih2, ih3, ih4, ih5, ih6, ih7⟩ := ih (i + 1)
    simp only [invoked, outcomes, prompts, scans, stagesRun, chdirs] at ih1 ih2 ih3 ih4 ih5 ih6 ⊢
    by_cases hsel : selected.get (i : Int) = true
    · simp [deployLoop, checkedFrom, hsel, deployProject_dryRun, List.filterMap_append,
        List.countP_cons, ih1, ih2, ih3, ih4, ih5, ih6, ih7]
    · simp [deployLoop, checkedFrom, hsel, ih1, ih2, ih3, ih4, ih5, ih6, ih7]

/-- C2, at the failing input: catalog `[A]`, space then `q`.  The final model has
`done = false` and index 0 checked, and `deployCommand` runs the whole pipeline on
A. -/
theorem quit_with_checked_index_deploys :
    programRun (initialModel [pA]) quitWorld.msgs =
      some { projects := [pA], cursor := 0, selected := [(0, true)], done := false } ∧
    (deployCommand false quitWorld).map
        (fun r => (invoked r.1, stagesRun r.1, outcomes r.1)) =
      some ([pA], [Stage.clean, Stage.build, Stage.publish], [(pA, none)]) := by
  decide

/-- C3: when the final selection has a checked index, `deployCommand` returns, and
with S the catalog entries at a checked index in ascending order, `deployProject` is
invoked exactly on S up to and including the first entry whose invocation fails and
whose continue answer is neither `y` nor `Y` (on all of S when there is none); the
loop is left early exactly when there is such an entry. -/
theorem controller_sequencing (dryRun : Bool) (w : World) (projects : List Project)
    (fs : model)
    (hf : w.findProjects = Except.ok projects) (he : w.programErr = none)
    (hr : programRun (initialModel projects) w.msgs = some fs)
    (hsel : ∃ k, fs.selected.get k = true) :
    ∃ r, deployCommand dryRun w = some r ∧
      invoked r.1 =
        (throughFirst (failedAndNotContinued dryRun w)
          (checkedFrom fs.selected 0 projects)).map Prod.snd ∧
      outcomes r.1 =
        (throughFirst (failedAndNotContinued dryRun w)
          (checkedFrom fs.selected 0 projects)).map
          (fun ip => (ip.2, (deployProject ip.2 dryRun (w.deploy ip.1)).1)) ∧
      r.2 = (checkedFrom fs.selected 0 projects).any (failedAndNotContinued dryRun w) ∧
      (∃ rest, checkedFrom fs.selected 0 projects =
        throughFirst (failedAndNotContinued dryRun w) (checkedFrom fs.selected 0 projects)
          ++ rest) ∧
      (∀ j p, (j, p) ∈ checkedFrom fs.selected 0 projects ↔
        projects[j]? = some p ∧ fs.selected.get (j : Int) = true) ∧
      ((checkedFrom fs.selected 0 projects).map Prod.fst).Pairwise (fun a b => a < b) := by
  obtain ⟨k, hk⟩ := hsel
  have hany := GoMap.any_of_get fs.selected k hk
  have hproj := (programRun_final projects w.msgs fs hr).1
  obtain ⟨h1, h2, h3⟩ := deployLoop_spec fs.selected dryRun w projects 0
  refine ⟨deployFinalState fs dryRun w, ?_, ?_, ?_, ?_, throughFirst_append _ _, ?_,
    checkedFrom_ascending _ _ _⟩
  · simp [deployCommand, hf, he, hr]
  · simp only [deployFinalState, hany, hproj]
    simpa [invoked] using h1
  · simp only [deployFinalState, hany, hproj]
    simpa [outcomes] using h2
  · simp only [deployFinalState, hany, hproj]
    simpa using h3
  · intro j p
    rw [mem_checkedFrom]
    simp

theorem controller_sequencing_witness :
    (∃ k, GoMap.get [(1, true), (0, true)] k = true) ∧
    (∃ r, deployCommand false continueWorld = some r ∧
      invoked r.1 = [pA, pB] ∧
      outcomes r.1 = [(pA, some "build failed: exit status 1"), (pB, none)] ∧
      r.2 = false) ∧
    (∃ r, deployCommand false haltWorld = some r ∧
      invoked r.1 = [pA] ∧
      outcomes r.1 = [(pA, some "build failed: exit status 1")] ∧
      r.2 = true) := by
  obtain ⟨r, h1, h2, h3, h4, _⟩ := controller_sequencing false continueWorld [pA, pB]
    { projects := [pA, pB], cursor := 1, selected := [(1, true), (0, true)], done := true }
    rfl rfl (by decide) ⟨0, by decide⟩
  obtain ⟨r', h1', h2', h3', h4', _⟩ := controller_sequencing false haltWorld [pA, pB]
    { projects := [pA, pB], cursor := 1, selected := [(1, true), (0, true)], done := true }
    rfl rfl (by decide) ⟨0, by decide⟩
  exact ⟨⟨0, by decide⟩, ⟨r, h1, h2.trans (by decide), h3.trans (by decide),
    h4.trans (by decide)⟩, ⟨r', h1', h2'.trans (by decide), h3'.trans (by decide),
    h4'.trans (by decide)⟩⟩

/-- C4: with `dryRun = true`, `deployProject` returns `nil` for every project, changes
no directory, runs no stage, prints no prompt, reads no answer and advances its bar by
3, the number of steps; and `deployCommand` invokes it on every checked catalog entry,
each returning `nil`, with no prompt printed, no answer read and no early exit from
the loop. -/
theorem dry_run (w : World) (projects : List Project) (fs : model)
    (hf : w.findProjects = Except.ok projects) (he : w.programErr = none)
    (hr : programRun (initialModel projects) w.msgs = some fs) :
    (∀ (project : Project) (o : Oracle),
      (deployProject project true o).1 = none ∧
      chdirs (deployProject project true o).2 = [] ∧
      stagesRun (deployProject project true o).2 = [] ∧
      prompts (deployProject project true o).2 = [] ∧
      scans (deployProject project true o).2 = 0 ∧
      Event.barNew Bar.perProject 3 ∈ (deployProject project true o).2 ∧
      progress Bar.perProject (deployProject project true o).2 = 3 ∧
      steps.length = 3) ∧
    ∃ r, deployCommand true w = some r ∧
      invoked r.1 = (checkedFrom fs.selected 0 projects).map Prod.snd ∧
      outcomes r.1 = (checkedFrom fs.selected 0 projects).map (fun ip => (ip.2, none)) ∧
      (∀ j p, (j, p) ∈ checkedFrom fs.selected 0 projects ↔
        projects[j]? = some p ∧ fs.selected.get (j : Int) = true) ∧
      prompts r.1 = [] ∧ scans r.1 = 0 ∧ stagesRun r.1 = [] ∧ chdirs r.1 = [] ∧
      r.2 = false := by
  constructor
  · intro project o
    rw [deployProject_dryRun]
    simp [chdirs, stagesRun, prompts, scans, progress, steps]
  · have hproj := (programRun_final projects w.msgs fs hr).1
    have hmem : ∀ j p, (j, p) ∈ checkedFrom fs.selected 0 projects ↔
        projects[j]? = some p ∧ fs.selected.get (j : Int) = true := by
      intro j p
      rw [mem_checkedFrom]
      simp
    refine ⟨deployFinalState fs true w, by simp [deployCommand, hf, he, hr], ?_⟩
    cases hany : fs.selected.any (fun e => e.2) with
    | false =>
      have hnil := checkedFrom_eq_nil fs.selected
        (GoMap.get_eq_false_of_any fs.selected hany) projects 0
      simp only [deployFinalState, hany]
      refine ⟨?_, ?_, hmem, ?_⟩
      · simp [hnil, invoked]
      · simp [hnil, outcomes]
      · simp [prompts, scans, stagesRun, chdirs]
    | true =>
      obtain ⟨h1, h2, h3, h4, h5, h6, h7⟩ := deployLoop_dryRun fs.selected w projects 0
      simp only [deployFinalState, hany, hproj]
      refine ⟨?_, ?_, hmem, ?_⟩
      · simpa [invoked] using h1
      · simpa [outcomes] using h2
      · simp only [prompts, scans, stagesRun, chdirs] at h3 h4 h5 h6 ⊢
        simp [h3, h4, h5, h6, h7]

theorem dry_run_witness :
    continueWorld.findProjects = Except.ok [pA, pB] ∧
    (deployProject pA true buildFails).1 = none ∧
    ∃ r, deployCommand true continueWorld = some r ∧
      outcomes r.1 = [(pA, none), (pB, none)] ∧ prompts r.1 = [] ∧ scans r.1 = 0 := by
  obtain ⟨hp, r, h1, _, h3, _, h5, h6, _⟩ := dry_run continueWorld [pA, pB]
    { projects := [pA, pB], cursor := 1, selected := [(1, true), (0, true)], done := true }
    rfl rfl (by decide)
  exact ⟨rfl, (hp pA buildFails).1, r, h1, h3.trans (by decide), h5, h6⟩

/-- C8: when the selection program ends on enter (`done = true`) with no index mapped
to true, `deployCommand` only logs that no package is selected: no `deployProject`
invocation, no prompt, no answer read. -/
theorem empty_confirmed_selection (dryRun : Bool) (w : World) (projects : List Project)
    (fs : model)
    (hf : w.findProjects = Except.ok projects) (he : w.programErr = none)
    (hr : programRun (initialModel projects) w.msgs = some fs)
    (_hdone : fs.done = true)
    (hnone : ∀ k, fs.selected.get k = false) :
    deployCommand dryRun w = some ([Event.log "No nuget packages selected"], false) ∧
    ∃ r, deployCommand dryRun w = some r ∧
      invoked r.1 = [] ∧ prompts r.1 = [] ∧ scans r.1 = 0 ∧ stagesRun r.1 = [] := by
  have hnd := (programRun_final projects w.msgs fs hr).2
  have hany := GoMap.any_eq_false fs.selected hnd hnone
  have hres : deployCommand dryRun w = some ([Event.log "No nuget packages selected"], false) := by
    simp [deployCommand, hf, he, hr, deployFinalState, hany]
  exact ⟨hres, _, hres, by simp [invoked], by simp [prompts], by simp [scans],
    by simp [stagesRun]⟩

theorem empty_confirmed_selection_witness :
    programRun (initialModel [pA, pB]) nothingCheckedWorld.msgs =
      some { projects := [pA, pB], cursor := 0, selected := [(0, false)], done := true } ∧
    deployCommand false nothingCheckedWorld =
      some ([Event.log "No nuget packages selected"], false) :=
  ⟨by decide,
    (empty_confirmed_selection false nothingCheckedWorld [pA, pB]
      { projects := [pA, pB], cursor := 0, selected := [(0, false)], done := true }
      rfl rfl (by decide) rfl
      (fun k => by
        by_cases hk : k = 0
        · subst hk; rfl
        · have hb : (k == 0) = false := by simpa using hk
          simp [GoMap.get, List.lookup, hb])).1⟩

end NugetDeploy
